import Mathlib

/-!
Verification of the dense-tableau primal simplex solver in `src/simplex.rs`.

The tableau is a dense matrix of `f32` in the source; it is embedded here as a
matrix of exact rationals (`ℚ`).  Every concrete value appearing in the
verified runs is exactly representable, so rational arithmetic agrees with the
source arithmetic there.  The one place where IEEE-754 special values are
observable — the minimum-ratio test divides by an entering-column coefficient
that may be zero, producing `inf`/`NaN` ratios in `f32` — is modelled
faithfully by the extended type `FRat` below, with IEEE comparison behaviour.

`Rat.add`, `Rat.mul`, `Rat.inv` and `Rat.sub` are `@[irreducible]` in the
library, which blocks `decide` from evaluating concrete tableaux; they are
restored to the default reducibility for this file.
-/

attribute [local semireducible] Rat.add Rat.mul Rat.inv Rat.sub

namespace Simplex

/-- Dense matrix of rationals: row and column counts plus an entry function.
Embeds nalgebra's `DMatrix<f32>` (`simplex.rs` works with a fixed-size dense
matrix whose entries are mutated in place). -/
structure Mat where
  nr : Nat
  nc : Nat
  dat : Nat → Nat → ℚ

/-- Indexed write `table[(i, j)] = v`. -/
def setE (t : Mat) (i j : Nat) (v : ℚ) : Mat :=
  { t with dat := fun i' j' => if i' = i ∧ j' = j then v else t.dat i' j' }

/-- Result of an `f32` division `x / y` as observed by the ratio test:
finite value, `+inf`, `-inf`, or `NaN`. -/
inductive FRat where
  | fin : ℚ → FRat
  | posInf
  | negInf
  | nan
deriving DecidableEq

/-- IEEE-754 division `x / y` for exact operands: finite quotient when
`y ≠ 0`, and `±inf` / `NaN` when `y = 0` (`simplex.rs` line 70 divides by the
entering-column coefficient, which may be zero). -/
def fdiv (x y : ℚ) : FRat :=
  if y = 0 then (if 0 < x then FRat.posInf else if x < 0 then FRat.negInf else FRat.nan)
  else FRat.fin (x / y)

/-- IEEE comparison `r < 0.0` (line 71): false on `NaN` and `+inf`. -/
def fltZero : FRat → Bool
  | FRat.fin q => decide (q < 0)
  | FRat.negInf => true
  | FRat.posInf => false
  | FRat.nan => false

/-- IEEE comparison `a <= b` (line 75): false whenever either side is `NaN`. -/
def fle : FRat → FRat → Bool
  | FRat.nan, _ => false
  | _, FRat.nan => false
  | FRat.negInf, _ => true
  | _, FRat.posInf => true
  | FRat.posInf, _ => false
  | FRat.fin _, FRat.negInf => false
  | FRat.fin q, FRat.fin q' => decide (q ≤ q')

/-- Body of the entering-variable scan (`simplex.rs` lines 49-59): skip
columns with a non-negative objective-row entry, skip candidates strictly
greater than the current best, otherwise replace the current best. -/
def entStep (t : Mat) (acc : Option (Nat × ℚ)) (j : Nat) : Option (Nat × ℚ) :=
  if 0 ≤ t.dat 0 j then acc
  else
    match acc with
    | some e => if e.2 < t.dat 0 j then acc else some (j, t.dat 0 j)
    | none => some (j, t.dat 0 j)

/-- Entering-variable selection: fold of `entStep` over columns `1 .. ncols-1`
(the loop `for j in 1..table.ncols()`). -/
def pickEntering (t : Mat) : Option (Nat × ℚ) :=
  (List.range' 1 (t.nc - 1)).foldl (entStep t) none

/-- Body of the leaving-row scan (lines 69-80): compute the ratio
`RHS[i] / table[i][c]`, skip rows whose ratio is negative, skip candidates
when the current best is `<=` the new ratio, otherwise replace. -/
def leaveStep (t : Mat) (c : Nat) (acc : Option (Nat × FRat)) (i : Nat) :
    Option (Nat × FRat) :=
  let r := fdiv (t.dat i (t.nc - 1)) (t.dat i c)
  if fltZero r then acc
  else
    match acc with
    | some p => if fle p.2 r then acc else some (i, r)
    | none => some (i, r)

/-- Leaving-row selection: fold of `leaveStep` over rows `1 .. nrows-1`
(the loop `for i in 1..table.nrows()`). -/
def pickLeaving (t : Mat) (c : Nat) : Option (Nat × FRat) :=
  (List.range' 1 (t.nr - 1)).foldl (leaveStep t c) none

/-- `get_next_pivot` (lines 45-86): entering column by most-negative
objective entry, then leaving row by the ratio test; `none` both when no
objective entry is negative and when no row survives the ratio test. -/
def get_next_pivot (t : Mat) : Option (Nat × Nat) :=
  match pickEntering t with
  | none => none
  | some e =>
    match pickLeaving t e.1 with
    | some p => some (e.1, p.1)
    | none => none

/-- One iteration of the outer loop of `apply_row_operations` (lines 28-37):
row `i` is skipped when it is the pivot row; otherwise the target entry is
captured once and every column entry of row `i` is updated in place, in
ascending column order.

Modelling boundary: the division `pivotRow[j] / pivotRow[pc]` uses total ℚ
division, which agrees with the source's `f32` division exactly when the
pivot entry `pivotRow[pc]` is nonzero.  The ratio test can select a pivot
with entry 0 (see `tNaN` and the C8 counterexample), and there the source
produces `inf`/`NaN` entries (`fdiv` is the faithful model of that
division) while ℚ yields `x / 0 = 0`; theorems about the updated tableau
therefore carry an explicit nonzero-pivot-entry hypothesis. -/
def rowUpd (pc pr : Nat) (t : Mat) (i : Nat) : Mat :=
  if i = pr then t
  else
    let target := t.dat i pc
    (List.range t.nc).foldl
      (fun s j => setE s i j (s.dat i j + s.dat pr j / s.dat pr pc * -target)) t

/-- `apply_row_operations` (lines 27-39): sequential in-place row updates over
all rows.  `pivot.1` is the entering column, `pivot.2` the leaving row, as in
the source's `pivot.0` / `pivot.1`. -/
def apply_row_operations (pivot : Nat × Nat) (t : Mat) : Mat :=
  (List.range t.nr).foldl (rowUpd pivot.1 pivot.2) t

/-- Column count of the constraint matrix (`constr.ncols()`); the dense
matrix is embedded as a rectangular list of rows. -/
def ncolsOf (c : List (List ℚ)) : Nat := (c.headD []).length

/-- The objective-row loop of `create_augmented_mat` (lines 101-103):
`table[(0, i+1)] = -obj[i]` for each `i`. -/
def objRowFold (obj : List ℚ) (t : Mat) : Mat :=
  (List.range obj.length).foldl (fun s i => setE s 0 (i + 1) (-(obj.getD i 0))) t

/-- The constraint-row loop body of `create_augmented_mat` (lines 106-115)
for one row `i`: the slack entry `table[(i, cn + i)] = 1.0` followed by the
inner loop over columns `1 .. n_cols-1` writing the requirement in the last
column and the constraint coefficients in columns `1 ..= cn`. -/
def constrRowFill (cn ncl : Nat) (constr : List (List ℚ)) (req : List ℚ)
    (s : Mat) (i : Nat) : Mat :=
  (List.range' 1 (ncl - 1)).foldl (fun s2 j =>
    if j = ncl - 1 then setE s2 i j (req.getD (i - 1) 0)
    else if j ≤ cn then setE s2 i j ((constr.getD (i - 1) []).getD (j - 1) 0)
    else s2) (setE s i (cn + i) 1)

/-- `create_augmented_mat` (lines 89-118): a zero matrix of shape
`(constr.nrows + 1) × (constr.nrows + obj.len + 2)`, entry `(0,0)` set to 1,
then the objective row, then each constraint row. -/
def create_augmented_mat (obj : List ℚ) (constr : List (List ℚ))
    (req : List ℚ) : Mat :=
  let n_rows := constr.length + 1
  let n_cols := n_rows + obj.length + 1
  (List.range' 1 (n_rows - 1)).foldl
    (constrRowFill (ncolsOf constr) n_cols constr req)
    (objRowFold obj (setE ⟨n_rows, n_cols, fun _ _ => 0⟩ 0 0 1))

/-- The `while let` driver loop of `simplex_method` (lines 15-21), with
explicit fuel: the source loop has no termination guarantee (the spec notes
the tie-break rule offers no anti-cycling protection). -/
def simplexLoop : Nat → Mat → Mat
  | 0, t => t
  | Nat.succ n, t =>
    match get_next_pivot t with
    | none => t
    | some p => simplexLoop n (apply_row_operations p t)

/-- `simplex_method` (lines 5-23).  The `with_print` branches only call
`println!` and never touch the tableau, so they are elided; the returned
matrix is the loop result. -/
def simplex_method (fuel : Nat) (constr : List (List ℚ)) (req obj : List ℚ)
    (with_print : Bool) : Mat :=
  simplexLoop fuel (create_augmented_mat obj constr req)

/-- Failure conditions observable from the builder: a Rust index-out-of-bounds
panic, or the structured `InvalidDimensions` error the spec's error taxonomy
requires (the source never produces the latter). -/
inductive BuildError where
  | indexOutOfBounds
  | invalidDimensions
deriving DecidableEq

/-- Projection extracting the error of a checked builder run. -/
def buildErr : Except BuildError Mat → Option BuildError
  | Except.error e => some e
  | Except.ok _ => none

/-- `create_augmented_mat` with the source's fallible accesses made explicit:
`req[i - 1]` is a `Vec` index (panics when out of bounds) and
`constr[(i - 1, j - 1)]` is a dense-matrix index (panics unless
`i - 1 < constr.nrows` and `j - 1 < constr.ncols`); the slack write panics
when its column exceeds the tableau width.  A panic is modelled as
`Except.error BuildError.indexOutOfBounds`. -/
def create_augmented_mat_checked (obj : List ℚ) (constr : List (List ℚ))
    (req : List ℚ) : Except BuildError Mat :=
  let n_rows := constr.length + 1
  let n_cols := n_rows + obj.length + 1
  let cn := ncolsOf constr
  let t2 := objRowFold obj (setE ⟨n_rows, n_cols, fun _ _ => 0⟩ 0 0 1)
  (List.range' 1 (n_rows - 1)).foldlM (fun s i =>
    if cn + i < n_cols then
      (List.range' 1 (n_cols - 1)).foldlM (fun s2 j =>
        if j = n_cols - 1 then
          match req.get? (i - 1) with
          | some v => Except.ok (setE s2 i j v)
          | none => Except.error BuildError.indexOutOfBounds
        else if j ≤ cn then
          if i - 1 < constr.length ∧ j - 1 < cn then
            Except.ok (setE s2 i j ((constr.getD (i - 1) []).getD (j - 1) 0))
          else Except.error BuildError.indexOutOfBounds
        else Except.ok s2) (setE s i (cn + i) 1)
    else Except.error BuildError.indexOutOfBounds) t2

/-- Tableau with a tie in the objective row: both decision variables have
objective coefficient 1, so row 0 holds `-1` in columns 1 and 2. -/
def tTie : Mat := create_augmented_mat [1, 1] [[1, 2], [3, 4]] [10, 10]

/-- Tableau whose first constraint row has requirement 0 and entering-column
coefficient `-1`: its ratio is `0 / -1 = -0.0`, which the test keeps. -/
def tZeroReq : Mat := create_augmented_mat [1] [[-1], [1]] [0, 5]

/-- Unbounded problem: maximize `x` subject to `-x <= 4`, `x >= 0`. -/
def tUnb : Mat := create_augmented_mat [1] [[-1]] [4]

/-- Smallest interesting bounded problem: maximize `x` subject to `2x <= 4`;
its single pivot entry is 2, so pivoting does not produce a unit column. -/
def tOne : Mat := create_augmented_mat [1] [[2]] [4]

/-- Tableau built from objective `[1]`, constraint `[[0]]`, requirement
`[0]`: the only constraint row has entering-column coefficient 0 and RHS 0,
so its ratio is `0.0 / 0.0 = NaN`, which the test keeps — the row is
selected and the pivot entry is 0. -/
def tNaN : Mat := create_augmented_mat [1] [[0]] [0]

/-- Objective of the worked example in `simplex_test_problem1`. -/
def objP1 : List ℚ := [20000, 45000, 85000]

/-- Constraint matrix of the worked example in `simplex_test_problem1`. -/
def constrP1 : List (List ℚ) := [[10, 15, 10], [13, 5, 5], [20, 5, 10], [0, 0, 1]]

/-- Requirement vector of the worked example in `simplex_test_problem1`. -/
def reqP1 : List ℚ := [720, 680, 550, 7]

/-- Objective used for the dimension-mismatch input (length matches the
constraint-matrix column count, so only the requirement access fails). -/
def objMis : List ℚ := [20000, 45000]

/-- Constraint matrix with 3 rows for the dimension-mismatch input. -/
def constrMis : List (List ℚ) := [[10, 15], [13, 5], [20, 5]]

/-- Requirement vector of length 2, mismatching the 3 constraint rows. -/
def reqMis : List ℚ := [720, 680]

/-- Valid builder input used to witness the shape theorem. -/
def objW : List ℚ := [1, 2]

/-- Valid 2 × 2 constraint matrix used to witness the shape theorem. -/
def constrW : List (List ℚ) := [[3, 4], [5, 6]]

/-- Valid requirement vector used to witness the shape theorem. -/
def reqW : List ℚ := [7, 8]

theorem dat_setE (t : Mat) (i j i' j' : Nat) (v : ℚ) :
    (setE t i j v).dat i' j' = if i' = i ∧ j' = j then v else t.dat i' j' := rfl

theorem dat_mk (a b : Nat) (f : Nat → Nat → ℚ) (i j : Nat) :
    (Mat.mk a b f).dat i j = f i j := rfl

theorem entStep_none (t : Mat) (j : Nat) :
    entStep t none j = if 0 ≤ t.dat 0 j then none else some (j, t.dat 0 j) := rfl

theorem entStep_some (t : Mat) (j : Nat) (e : Nat × ℚ) :
    entStep t (some e) j =
      if 0 ≤ t.dat 0 j then some e
      else if e.2 < t.dat 0 j then some e
      else some (j, t.dat 0 j) := rfl

theorem entFold_char (t : Mat) (k : Nat) :
    ((List.range' 1 k).foldl (entStep t) none = none ↔
      ∀ j, 1 ≤ j → j < 1 + k → 0 ≤ t.dat 0 j) ∧
    (∀ c v, (List.range' 1 k).foldl (entStep t) none = some (c, v) →
      v = t.dat 0 c ∧ t.dat 0 c < 0 ∧ 1 ≤ c ∧ c < 1 + k ∧
      (∀ j, 1 ≤ j → j < 1 + k → t.dat 0 j < 0 → t.dat 0 c ≤ t.dat 0 j) ∧
      (∀ j, c < j → j < 1 + k → t.dat 0 c < t.dat 0 j)) := by
  induction k with
  | zero =>
    constructor
    · exact ⟨fun _ j hj hlt => absurd hlt (by omega), fun _ => rfl⟩
    · intro c v h
      simp [List.range'] at h
  | succ k ih =>
    obtain ⟨ihn, ihs⟩ := ih
    have hcat : List.range' 1 (k + 1) = List.range' 1 k ++ [1 + k] := by
      simpa using @List.range'_concat 1 1 k
    rw [hcat, List.foldl_append, List.foldl_cons, List.foldl_nil]
    by_cases h0 : 0 ≤ t.dat 0 (1 + k)
    · have hstep : entStep t ((List.range' 1 k).foldl (entStep t) none) (1 + k) =
          (List.range' 1 k).foldl (entStep t) none := by
        cases hA : (List.range' 1 k).foldl (entStep t) none with
        | none => rw [entStep_none, if_pos h0]
        | some e => rw [entStep_some, if_pos h0]
      rw [hstep]
      constructor
      · rw [ihn]
        constructor
        · intro hall j hj hlt
          rcases Nat.lt_or_ge j (1 + k) with hc | hc
          · exact hall j hj hc
          · have hj' : j = 1 + k := by omega
            rw [hj']
            exact h0
        · intro hall j hj hlt
          exact hall j hj (by omega)
      · intro c v hA
        obtain ⟨h1, h2, h3, h4, h5, h6⟩ := ihs c v hA
        refine ⟨h1, h2, h3, by omega, ?_, ?_⟩
        · intro j hj hlt hneg
          rcases Nat.lt_or_ge j (1 + k) with hc | hc
          · exact h5 j hj hc hneg
          · have hj' : j = 1 + k := by omega
            rw [hj'] at hneg
            exact absurd hneg (not_lt.mpr h0)
        · intro j hjc hlt
          rcases Nat.lt_or_ge j (1 + k) with hc | hc
          · exact h6 j hjc hc
          · have hj' : j = 1 + k := by omega
            rw [hj']
            exact lt_of_lt_of_le h2 h0
    · have h0' : t.dat 0 (1 + k) < 0 := not_le.mp h0
      cases hA : (List.range' 1 k).foldl (entStep t) none with
      | none =>
        have hall := ihn.mp hA
        rw [entStep_none, if_neg h0]
        constructor
        · constructor
          · intro h
            cases h
          · intro hall2
            exact absurd (hall2 (1 + k) (by omega) (by omega)) h0
        · intro c v hcv
          have h' := Option.some.inj hcv
          have hc : 1 + k = c := congrArg Prod.fst h'
          have hv : t.dat 0 (1 + k) = v := congrArg Prod.snd h'
          rw [← hc, ← hv]
          refine ⟨rfl, h0', by omega, by omega, ?_, by intro j hjc hlt; omega⟩
          intro j hj hlt hneg
          rcases Nat.lt_or_ge j (1 + k) with hd | hd
          · exact absurd (hall j hj hd) (not_le.mpr hneg)
          · have hj' : j = 1 + k := by omega
            rw [hj']
      | some e =>
        obtain ⟨h1, h2, h3, h4, h5, h6⟩ := ihs e.1 e.2 (by rw [hA])
        rw [entStep_some, if_neg h0]
        by_cases hcmp : e.2 < t.dat 0 (1 + k)
        · rw [if_pos hcmp]
          constructor
          · constructor
            · intro h
              cases h
            · intro hall2
              exact absurd (hall2 e.1 h3 (by omega)) (not_le.mpr h2)
          · intro c v hcv
            have h' := Option.some.inj hcv
            have hc : e.1 = c := congrArg Prod.fst h'
            have hv : e.2 = v := congrArg Prod.snd h'
            rw [← hc, ← hv]
            refine ⟨h1, h2, h3, by omega, ?_, ?_⟩
            · intro j hj hlt hneg
              rcases Nat.lt_or_ge j (1 + k) with hd | hd
              · exact h5 j hj hd hneg
              · have hj' : j = 1 + k := by omega
                rw [hj']
                rw [h1] at hcmp
                exact le_of_lt hcmp
            · intro j hjc hlt
              rcases Nat.lt_or_ge j (1 + k) with hd | hd
              · exact h6 j hjc hd
              · have hj' : j = 1 + k := by omega
                rw [hj']
                rw [h1] at hcmp
                exact hcmp
        · rw [if_neg hcmp]
          have hcmp' : t.dat 0 (1 + k) ≤ e.2 := not_lt.mp hcmp
          constructor
          · constructor
            · intro h
              cases h
            · intro hall2
              exact absurd (hall2 (1 + k) (by omega) (by omega)) h0
          · intro c v hcv
            have h' := Option.some.inj hcv
            have hc : 1 + k = c := congrArg Prod.fst h'
            have hv : t.dat 0 (1 + k) = v := congrArg Prod.snd h'
            rw [← hc, ← hv]
            refine ⟨rfl, h0', by omega, by omega, ?_,
              by intro j hjc hlt; omega⟩
            intro j hj hlt hneg
            rcases Nat.lt_or_ge j (1 + k) with hd | hd
            · calc t.dat 0 (1 + k) ≤ e.2 := hcmp'
                _ = t.dat 0 e.1 := h1
                _ ≤ t.dat 0 j := h5 j hj hd hneg
            · have hj' : j = 1 + k := by omega
              rw [hj']

theorem pickEntering_none (t : Mat) :
    pickEntering t = none ↔ ∀ j, 1 ≤ j → j < t.nc → 0 ≤ t.dat 0 j := by
  unfold pickEntering
  rw [(entFold_char t (t.nc - 1)).1]
  constructor <;> intro hall j hj hlt <;> exact hall j hj (by omega)

theorem pickEntering_some (t : Mat) (c : Nat) (v : ℚ)
    (h : pickEntering t = some (c, v)) :
    v = t.dat 0 c ∧ t.dat 0 c < 0 ∧ 1 ≤ c ∧ c < t.nc ∧
    (∀ j, 1 ≤ j → j < t.nc → t.dat 0 j < 0 → t.dat 0 c ≤ t.dat 0 j) ∧
    (∀ j, c < j → j < t.nc → t.dat 0 c < t.dat 0 j) := by
  unfold pickEntering at h
  obtain ⟨h1, h2, h3, h4, h5, h6⟩ := (entFold_char t (t.nc - 1)).2 c v h
  have hnc : 1 ≤ t.nc := by omega
  refine ⟨h1, h2, h3, by omega, ?_, ?_⟩
  · intro j hj hlt hneg
    exact h5 j hj (by omega) hneg
  · intro j hjc hlt
    exact h6 j hjc (by omega)

theorem leaveStep_none (t : Mat) (c i : Nat) :
    leaveStep t c none i =
      if fltZero (fdiv (t.dat i (t.nc - 1)) (t.dat i c)) = true then none
      else some (i, fdiv (t.dat i (t.nc - 1)) (t.dat i c)) := rfl

theorem leaveStep_some (t : Mat) (c i : Nat) (p : Nat × FRat) :
    leaveStep t c (some p) i =
      if fltZero (fdiv (t.dat i (t.nc - 1)) (t.dat i c)) = true then some p
      else if fle p.2 (fdiv (t.dat i (t.nc - 1)) (t.dat i c)) = true then some p
      else some (i, fdiv (t.dat i (t.nc - 1)) (t.dat i c)) := rfl

theorem leaveFold_some (t : Mat) (c : Nat) (P : Nat → Prop) :
    ∀ L : List Nat, (∀ i ∈ L, P i) →
      ∀ acc : Option (Nat × FRat),
        (∀ p : Nat × FRat, acc = some p →
          p.2 = fdiv (t.dat p.1 (t.nc - 1)) (t.dat p.1 c) ∧
          fltZero p.2 = false ∧ P p.1) →
        ∀ p : Nat × FRat, L.foldl (leaveStep t c) acc = some p →
          p.2 = fdiv (t.dat p.1 (t.nc - 1)) (t.dat p.1 c) ∧
          fltZero p.2 = false ∧ P p.1 := by
  intro L
  induction L with
  | nil =>
    intro _ acc hacc p h
    exact hacc p h
  | cons i L ih =>
    intro hL acc hacc p h
    rw [List.foldl_cons] at h
    refine ih (fun j hj => hL j (List.mem_cons_of_mem _ hj)) _ ?_ p h
    intro q hq
    by_cases hneg : fltZero (fdiv (t.dat i (t.nc - 1)) (t.dat i c)) = true
    · cases hacc0 : acc with
      | none =>
        rw [hacc0, leaveStep_none, if_pos hneg] at hq
        cases hq
      | some p0 =>
        rw [hacc0, leaveStep_some, if_pos hneg] at hq
        exact hacc q (hacc0.trans hq)
    · have hfalse : fltZero (fdiv (t.dat i (t.nc - 1)) (t.dat i c)) = false := by
        simpa using hneg
      cases hacc0 : acc with
      | none =>
        rw [hacc0, leaveStep_none, if_neg hneg] at hq
        have h' := Option.some.inj hq
        refine ⟨?_, ?_, ?_⟩
        · rw [← h']
        · rw [← h']
          exact hfalse
        · rw [← h']
          exact hL i (List.mem_cons_self i L)
      | some p0 =>
        rw [hacc0, leaveStep_some, if_neg hneg] at hq
        by_cases hle : fle p0.2 (fdiv (t.dat i (t.nc - 1)) (t.dat i c)) = true
        · rw [if_pos hle] at hq
          exact hacc q (hacc0.trans hq)
        · rw [if_neg hle] at hq
          have h' := Option.some.inj hq
          refine ⟨?_, ?_, ?_⟩
          · rw [← h']
          · rw [← h']
            exact hfalse
          · rw [← h']
            exact hL i (List.mem_cons_self i L)

theorem pickLeaving_some (t : Mat) (c r : Nat) (v : FRat)
    (h : pickLeaving t c = some (r, v)) :
    v = fdiv (t.dat r (t.nc - 1)) (t.dat r c) ∧ fltZero v = false ∧
    1 ≤ r ∧ r < t.nr := by
  unfold pickLeaving at h
  have hres := leaveFold_some t c (fun i => 1 ≤ i ∧ i < t.nr)
    (List.range' 1 (t.nr - 1))
    (fun i hi => by
      have := List.mem_range'_1.mp hi
      omega)
    none (fun p hp => by cases hp) (r, v) h
  exact ⟨hres.1, hres.2.1, hres.2.2.1, hres.2.2.2⟩

theorem get_next_pivot_some (t : Mat) (c r : Nat)
    (h : get_next_pivot t = some (c, r)) :
    pickEntering t = some (c, t.dat 0 c) ∧
    pickLeaving t c = some (r, fdiv (t.dat r (t.nc - 1)) (t.dat r c)) := by
  unfold get_next_pivot at h
  cases he : pickEntering t with
  | none =>
    rw [he] at h
    cases h
  | some e =>
    rw [he] at h
    have h1 : (match pickLeaving t e.1 with
        | some p => some (e.1, p.1)
        | none => none) = some (c, r) := h
    cases hl : pickLeaving t e.1 with
    | none =>
      rw [hl] at h1
      cases h1
    | some p =>
      rw [hl] at h1
      have h2 : some (e.1, p.1) = some (c, r) := h1
      have h' := Option.some.inj h2
      have hc : e.1 = c := congrArg Prod.fst h'
      have hr : p.1 = r := congrArg Prod.snd h'
      obtain ⟨hv, _, _, _, _, _⟩ := pickEntering_some t e.1 e.2 (by rw [he])
      obtain ⟨hv2, _, _, _⟩ := pickLeaving_some t e.1 p.1 p.2 (by rw [hl])
      constructor
      · rw [← hc, ← hv]
      · rw [← hc, hl, ← hr, ← hv2]

theorem ratio_nonneg (x y : ℚ) (h : fltZero (fdiv x y) = false) : 0 ≤ x / y := by
  by_cases hz : y = 0
  · rw [hz, div_zero]
  · unfold fdiv at h
    rw [if_neg hz] at h
    simp only [fltZero, decide_eq_false_iff_not, not_lt] at h
    exact h

theorem simplexLoop_of_none (n : Nat) (t : Mat) (h : get_next_pivot t = none) :
    simplexLoop n t = t := by
  cases n with
  | zero => rfl
  | succ n =>
    unfold simplexLoop
    rw [h]

theorem foldl_nr_pres (step : Mat → Nat → Mat) (h : ∀ s k, (step s k).nr = s.nr) :
    ∀ (L : List Nat) (t : Mat), (L.foldl step t).nr = t.nr := by
  intro L
  induction L with
  | nil => intro t; rfl
  | cons j L ih =>
    intro t
    rw [List.foldl_cons, ih, h]

theorem foldl_nc_pres (step : Mat → Nat → Mat) (h : ∀ s k, (step s k).nc = s.nc) :
    ∀ (L : List Nat) (t : Mat), (L.foldl step t).nc = t.nc := by
  intro L
  induction L with
  | nil => intro t; rfl
  | cons j L ih =>
    intro t
    rw [List.foldl_cons, ih, h]

theorem rowUpd_nr (pc pr : Nat) (t : Mat) (i : Nat) : (rowUpd pc pr t i).nr = t.nr := by
  unfold rowUpd
  split
  · rfl
  · exact foldl_nr_pres
      (fun s j => setE s i j (s.dat i j + s.dat pr j / s.dat pr pc * -(t.dat i pc)))
      (fun s k => rfl) (List.range t.nc) t

theorem rowUpd_nc (pc pr : Nat) (t : Mat) (i : Nat) : (rowUpd pc pr t i).nc = t.nc := by
  unfold rowUpd
  split
  · rfl
  · exact foldl_nc_pres
      (fun s j => setE s i j (s.dat i j + s.dat pr j / s.dat pr pc * -(t.dat i pc)))
      (fun s k => rfl) (List.range t.nc) t

theorem rowUpd_of_ne (pc pr : Nat) (t : Mat) (i : Nat) (h : ¬ i = pr) :
    rowUpd pc pr t i =
      (List.range t.nc).foldl
        (fun s j => setE s i j (s.dat i j + s.dat pr j / s.dat pr pc * -(t.dat i pc))) t := by
  unfold rowUpd
  rw [if_neg h]

theorem rowUpdAux (pc pr i : Nat) (hip : ¬ i = pr) (target : ℚ) :
    ∀ (n : Nat) (t : Mat) (i' j' : Nat),
      ((List.range n).foldl
        (fun s j => setE s i j (s.dat i j + s.dat pr j / s.dat pr pc * -target)) t).dat i' j' =
      if i' = i ∧ j' < n then t.dat i j' + t.dat pr j' / t.dat pr pc * -target
      else t.dat i' j' := by
  intro n
  induction n with
  | zero =>
    intro t i' j'
    rw [List.range_zero, List.foldl_nil, if_neg (by omega)]
  | succ n ih =>
    intro t i' j'
    rw [List.range_succ, List.foldl_append, List.foldl_cons, List.foldl_nil, dat_setE]
    by_cases hii : i' = i
    · by_cases hjn : j' = n
      · rw [if_pos ⟨hii, hjn⟩]
        rw [ih t i n, ih t pr n, ih t pr pc]
        rw [if_neg (by omega : ¬ (i = i ∧ n < n)),
          if_neg (by omega : ¬ (pr = i ∧ n < n)),
          if_neg (fun hh => hip hh.1.symm : ¬ (pr = i ∧ pc < n))]
        rw [if_pos (⟨hii, by omega⟩ : i' = i ∧ j' < n + 1), hjn]
      · rw [if_neg (by omega : ¬ (i' = i ∧ j' = n)), ih t i' j']
        by_cases hjlt : j' < n
        · rw [if_pos ⟨hii, hjlt⟩, if_pos (⟨hii, by omega⟩ : i' = i ∧ j' < n + 1)]
        · rw [if_neg (by omega : ¬ (i' = i ∧ j' < n)),
            if_neg (by omega : ¬ (i' = i ∧ j' < n + 1))]
    · rw [if_neg (by omega : ¬ (i' = i ∧ j' = n)), ih t i' j',
        if_neg (by omega : ¬ (i' = i ∧ j' < n)),
        if_neg (by omega : ¬ (i' = i ∧ j' < n + 1))]

theorem applyAux (pc pr : Nat) :
    ∀ (m : Nat) (t : Mat) (i' j' : Nat),
      ((List.range m).foldl (rowUpd pc pr) t).dat i' j' =
      if i' < m ∧ ¬ i' = pr ∧ j' < t.nc then
        t.dat i' j' + t.dat pr j' / t.dat pr pc * -(t.dat i' pc)
      else t.dat i' j' := by
  intro m
  induction m with
  | zero =>
    intro t i' j'
    rw [List.range_zero, List.foldl_nil, if_neg (by omega)]
  | succ m ih =>
    intro t i' j'
    rw [List.range_succ, List.foldl_append, List.foldl_cons, List.foldl_nil]
    by_cases hm : m = pr
    · have hskip : rowUpd pc pr ((List.range m).foldl (rowUpd pc pr) t) m =
          (List.range m).foldl (rowUpd pc pr) t := by
        unfold rowUpd
        rw [if_pos hm]
      rw [hskip, ih t i' j']
      by_cases h1 : i' < m ∧ ¬ i' = pr ∧ j' < t.nc
      · rw [if_pos h1,
          if_pos (⟨by omega, h1.2.1, h1.2.2⟩ : i' < m + 1 ∧ ¬ i' = pr ∧ j' < t.nc)]
      · rw [if_neg h1,
          if_neg (fun hh => h1 ⟨by omega, hh.2.1, hh.2.2⟩ :
            ¬ (i' < m + 1 ∧ ¬ i' = pr ∧ j' < t.nc))]
    · have hGnc : ((List.range m).foldl (rowUpd pc pr) t).nc = t.nc :=
        foldl_nc_pres _ (rowUpd_nc pc pr) _ t
      have hud : ∀ a b, (rowUpd pc pr ((List.range m).foldl (rowUpd pc pr) t) m).dat a b =
          if a = m ∧ b < t.nc then
            ((List.range m).foldl (rowUpd pc pr) t).dat m b +
              ((List.range m).foldl (rowUpd pc pr) t).dat pr b /
                ((List.range m).foldl (rowUpd pc pr) t).dat pr pc *
                -(((List.range m).foldl (rowUpd pc pr) t).dat m pc)
          else ((List.range m).foldl (rowUpd pc pr) t).dat a b := by
        intro a b
        rw [rowUpd_of_ne pc pr _ m hm, hGnc]
        exact rowUpdAux pc pr m hm _ t.nc _ a b
      rw [hud i' j']
      by_cases hii : i' = m
      · by_cases hj : j' < t.nc
        · rw [if_pos ⟨hii, hj⟩]
          rw [ih t m j', ih t pr j', ih t pr pc, ih t m pc]
          rw [if_neg (by omega : ¬ (m < m ∧ ¬ m = pr ∧ j' < t.nc)),
            if_neg (fun hh => hh.2.1 rfl : ¬ (pr < m ∧ ¬ pr = pr ∧ j' < t.nc)),
            if_neg (fun hh => hh.2.1 rfl : ¬ (pr < m ∧ ¬ pr = pr ∧ pc < t.nc)),
            if_neg (by omega : ¬ (m < m ∧ ¬ m = pr ∧ pc < t.nc))]
          rw [if_pos (⟨by omega, by omega, hj⟩ : i' < m + 1 ∧ ¬ i' = pr ∧ j' < t.nc),
            hii]
        · rw [if_neg (by omega : ¬ (i' = m ∧ j' < t.nc)), ih t i' j',
            if_neg (by omega : ¬ (i' < m ∧ ¬ i' = pr ∧ j' < t.nc)),
            if_neg (by omega : ¬ (i' < m + 1 ∧ ¬ i' = pr ∧ j' < t.nc))]
      · rw [if_neg (by omega : ¬ (i' = m ∧ j' < t.nc)), ih t i' j']
        by_cases h1 : i' < m ∧ ¬ i' = pr ∧ j' < t.nc
        · rw [if_pos h1,
            if_pos (⟨by omega, h1.2.1, h1.2.2⟩ : i' < m + 1 ∧ ¬ i' = pr ∧ j' < t.nc)]
        · rw [if_neg h1,
            if_neg (fun hh => h1 ⟨by omega, hh.2.1, hh.2.2⟩ :
              ¬ (i' < m + 1 ∧ ¬ i' = pr ∧ j' < t.nc))]

theorem apply_row_operations_dat (pc pr : Nat) (t : Mat) (i j : Nat) :
    (apply_row_operations (pc, pr) t).dat i j =
      if i < t.nr ∧ ¬ i = pr ∧ j < t.nc then
        t.dat i j + t.dat pr j / t.dat pr pc * -(t.dat i pc)
      else t.dat i j :=
  applyAux pc pr t.nr t i j

theorem objRowFoldAux (obj : List ℚ) :
    ∀ (k : Nat) (t : Mat) (i j : Nat),
      ((List.range k).foldl (fun s i2 => setE s 0 (i2 + 1) (-(obj.getD i2 0))) t).dat i j =
      if i = 0 ∧ 1 ≤ j ∧ j ≤ k then -(obj.getD (j - 1) 0) else t.dat i j := by
  intro k
  induction k with
  | zero =>
    intro t i j
    rw [List.range_zero, List.foldl_nil, if_neg (by omega)]
  | succ k ih =>
    intro t i j
    rw [List.range_succ, List.foldl_append, List.foldl_cons, List.foldl_nil, dat_setE]
    by_cases hij : i = 0 ∧ j = k + 1
    · rw [if_pos hij, if_pos (⟨hij.1, by omega, by omega⟩ : i = 0 ∧ 1 ≤ j ∧ j ≤ k + 1)]
      rw [hij.2, Nat.add_sub_cancel]
    · rw [if_neg hij, ih t i j]
      by_cases h2 : i = 0 ∧ 1 ≤ j ∧ j ≤ k
      · rw [if_pos h2, if_pos (⟨h2.1, h2.2.1, by omega⟩ : i = 0 ∧ 1 ≤ j ∧ j ≤ k + 1)]
      · rw [if_neg h2, if_neg (by omega : ¬ (i = 0 ∧ 1 ≤ j ∧ j ≤ k + 1))]

theorem constrRowFill_nr (cn ncl : Nat) (constr : List (List ℚ)) (req : List ℚ)
    (s : Mat) (i : Nat) : (constrRowFill cn ncl constr req s i).nr = s.nr := by
  unfold constrRowFill
  exact foldl_nr_pres (fun s2 j =>
    if j = ncl - 1 then setE s2 i j (req.getD (i - 1) 0)
    else if j ≤ cn then setE s2 i j ((constr.getD (i - 1) []).getD (j - 1) 0)
    else s2) (fun s2 j => by dsimp only; split_ifs <;> rfl) (List.range' 1 (ncl - 1))
    (setE s i (cn + i) 1)

theorem constrRowFill_nc (cn ncl : Nat) (constr : List (List ℚ)) (req : List ℚ)
    (s : Mat) (i : Nat) : (constrRowFill cn ncl constr req s i).nc = s.nc := by
  unfold constrRowFill
  exact foldl_nc_pres (fun s2 j =>
    if j = ncl - 1 then setE s2 i j (req.getD (i - 1) 0)
    else if j ≤ cn then setE s2 i j ((constr.getD (i - 1) []).getD (j - 1) 0)
    else s2) (fun s2 j => by dsimp only; split_ifs <;> rfl) (List.range' 1 (ncl - 1))
    (setE s i (cn + i) 1)

theorem constrRowFillAux (cn ncl : Nat) (constr : List (List ℚ)) (req : List ℚ) (i : Nat) :
    ∀ (k : Nat) (s : Mat) (i' j' : Nat),
      ((List.range' 1 k).foldl (fun s2 j =>
        if j = ncl - 1 then setE s2 i j (req.getD (i - 1) 0)
        else if j ≤ cn then setE s2 i j ((constr.getD (i - 1) []).getD (j - 1) 0)
        else s2) s).dat i' j' =
      if i' = i ∧ 1 ≤ j' ∧ j' < 1 + k then
        (if j' = ncl - 1 then req.getD (i - 1) 0
         else if j' ≤ cn then (constr.getD (i - 1) []).getD (j' - 1) 0
         else s.dat i j')
      else s.dat i' j' := by
  intro k
  induction k with
  | zero =>
    intro s i' j'
    rw [show List.range' 1 0 = ([] : List Nat) from rfl, List.foldl_nil,
      if_neg (by omega)]
  | succ k ih =>
    intro s i' j'
    rw [show List.range' 1 (k + 1) = List.range' 1 k ++ [1 + k] by
        simpa using @List.range'_concat 1 1 k,
      List.foldl_append, List.foldl_cons, List.foldl_nil]
    by_cases harm1 : 1 + k = ncl - 1
    · rw [if_pos harm1, dat_setE]
      by_cases hij : i' = i ∧ j' = 1 + k
      · rw [if_pos hij,
          if_pos (⟨hij.1, by omega, by omega⟩ : i' = i ∧ 1 ≤ j' ∧ j' < 1 + (k + 1))]
        rw [hij.2, if_pos harm1]
      · rw [if_neg hij, ih s i' j']
        by_cases h2 : i' = i ∧ 1 ≤ j' ∧ j' < 1 + k
        · rw [if_pos h2,
            if_pos (⟨h2.1, h2.2.1, by omega⟩ : i' = i ∧ 1 ≤ j' ∧ j' < 1 + (k + 1))]
        · rw [if_neg h2, if_neg (by omega : ¬ (i' = i ∧ 1 ≤ j' ∧ j' < 1 + (k + 1)))]
    · by_cases harm2 : 1 + k ≤ cn
      · rw [if_neg harm1, if_pos harm2, dat_setE]
        by_cases hij : i' = i ∧ j' = 1 + k
        · rw [if_pos hij,
            if_pos (⟨hij.1, by omega, by omega⟩ : i' = i ∧ 1 ≤ j' ∧ j' < 1 + (k + 1))]
          rw [hij.2, if_neg harm1, if_pos harm2]
        · rw [if_neg hij, ih s i' j']
          by_cases h2 : i' = i ∧ 1 ≤ j' ∧ j' < 1 + k
          · rw [if_pos h2,
              if_pos (⟨h2.1, h2.2.1, by omega⟩ : i' = i ∧ 1 ≤ j' ∧ j' < 1 + (k + 1))]
          · rw [if_neg h2, if_neg (by omega : ¬ (i' = i ∧ 1 ≤ j' ∧ j' < 1 + (k + 1)))]
      · rw [if_neg harm1, if_neg harm2, ih s i' j']
        by_cases h2 : i' = i ∧ 1 ≤ j' ∧ j' < 1 + k
        · rw [if_pos h2,
            if_pos (⟨h2.1, h2.2.1, by omega⟩ : i' = i ∧ 1 ≤ j' ∧ j' < 1 + (k + 1))]
        · by_cases hij : i' = i ∧ j' = 1 + k
          · rw [if_neg h2,
              if_pos (⟨hij.1, by omega, by omega⟩ : i' = i ∧ 1 ≤ j' ∧ j' < 1 + (k + 1))]
            rw [hij.2, if_neg harm1, if_neg harm2, hij.1]
          · rw [if_neg h2, if_neg (by omega : ¬ (i' = i ∧ 1 ≤ j' ∧ j' < 1 + (k + 1)))]

theorem constrRowFill_dat (cn ncl : Nat) (constr : List (List ℚ)) (req : List ℚ)
    (s : Mat) (i : Nat) (i' j' : Nat) :
    (constrRowFill cn ncl constr req s i).dat i' j' =
      if i' = i ∧ 1 ≤ j' ∧ j' < 1 + (ncl - 1) then
        (if j' = ncl - 1 then req.getD (i - 1) 0
         else if j' ≤ cn then (constr.getD (i - 1) []).getD (j' - 1) 0
         else if j' = cn + i then 1 else s.dat i j')
      else if i' = i ∧ j' = cn + i then 1 else s.dat i' j' := by
  unfold constrRowFill
  rw [constrRowFillAux cn ncl constr req i (ncl - 1) (setE s i (cn + i) 1) i' j']
  rw [dat_setE s i (cn + i) i j' 1, dat_setE s i (cn + i) i' j' 1]
  simp only [eq_self_iff_true, true_and]

theorem builderRowsAux (cn ncl : Nat) (constr : List (List ℚ)) (req : List ℚ) :
    ∀ (k : Nat) (s : Mat) (i' j' : Nat),
      ((List.range' 1 k).foldl (constrRowFill cn ncl constr req) s).dat i' j' =
      if 1 ≤ i' ∧ i' < 1 + k then
        (if 1 ≤ j' ∧ j' < 1 + (ncl - 1) then
          (if j' = ncl - 1 then req.getD (i' - 1) 0
           else if j' ≤ cn then (constr.getD (i' - 1) []).getD (j' - 1) 0
           else if j' = cn + i' then 1 else s.dat i' j')
         else if j' = cn + i' then 1 else s.dat i' j')
      else s.dat i' j' := by
  intro k
  induction k with
  | zero =>
    intro s i' j'
    rw [show List.range' 1 0 = ([] : List Nat) from rfl, List.foldl_nil,
      if_neg (by omega)]
  | succ k ih =>
    intro s i' j'
    rw [show List.range' 1 (k + 1) = List.range' 1 k ++ [1 + k] by
        simpa using @List.range'_concat 1 1 k,
      List.foldl_append, List.foldl_cons, List.foldl_nil]
    rw [constrRowFill_dat cn ncl constr req _ (1 + k) i' j']
    by_cases hii : i' = 1 + k
    · by_cases hj : 1 ≤ j' ∧ j' < 1 + (ncl - 1)
      · rw [if_pos ⟨hii, hj.1, hj.2⟩, hii,
          if_pos (⟨by omega, by omega⟩ : 1 ≤ 1 + k ∧ 1 + k < 1 + (k + 1)),
          if_pos hj, ih s (1 + k) j',
          if_neg (by omega : ¬ (1 ≤ 1 + k ∧ 1 + k < 1 + k))]
      · rw [if_neg (by omega : ¬ (i' = 1 + k ∧ 1 ≤ j' ∧ j' < 1 + (ncl - 1))), hii,
          if_pos (⟨by omega, by omega⟩ : 1 ≤ 1 + k ∧ 1 + k < 1 + (k + 1)),
          if_neg hj]
        by_cases hcn : j' = cn + (1 + k)
        · rw [if_pos ⟨rfl, hcn⟩, if_pos hcn]
        · rw [if_neg (by omega : ¬ ((1 + k : Nat) = 1 + k ∧ j' = cn + (1 + k))),
            if_neg hcn, ih s (1 + k) j',
            if_neg (by omega : ¬ (1 ≤ 1 + k ∧ 1 + k < 1 + k))]
    · rw [if_neg (by omega : ¬ (i' = 1 + k ∧ 1 ≤ j' ∧ j' < 1 + (ncl - 1))),
        if_neg (by omega : ¬ (i' = 1 + k ∧ j' = cn + (1 + k))), ih s i' j']
      by_cases h1 : 1 ≤ i' ∧ i' < 1 + k
      · rw [if_pos h1, if_pos (⟨h1.1, by omega⟩ : 1 ≤ i' ∧ i' < 1 + (k + 1))]
      · rw [if_neg h1, if_neg (by omega : ¬ (1 ≤ i' ∧ i' < 1 + (k + 1)))]

theorem create_augmented_mat_nr (obj : List ℚ) (constr : List (List ℚ))
    (req : List ℚ) : (create_augmented_mat obj constr req).nr = constr.length + 1 := by
  simp only [create_augmented_mat, objRowFold]
  rw [foldl_nr_pres
      (constrRowFill (ncolsOf constr) (constr.length + 1 + obj.length + 1) constr req)
      (constrRowFill_nr (ncolsOf constr) (constr.length + 1 + obj.length + 1) constr req)]
  rw [foldl_nr_pres (fun s i2 => setE s 0 (i2 + 1) (-(obj.getD i2 0))) (fun s k => rfl)]
  rfl

theorem create_augmented_mat_nc (obj : List ℚ) (constr : List (List ℚ))
    (req : List ℚ) :
    (create_augmented_mat obj constr req).nc = constr.length + 1 + obj.length + 1 := by
  simp only [create_augmented_mat, objRowFold]
  rw [foldl_nc_pres
      (constrRowFill (ncolsOf constr) (constr.length + 1 + obj.length + 1) constr req)
      (constrRowFill_nc (ncolsOf constr) (constr.length + 1 + obj.length + 1) constr req)]
  rw [foldl_nc_pres (fun s i2 => setE s 0 (i2 + 1) (-(obj.getD i2 0))) (fun s k => rfl)]
  rfl

theorem create_augmented_mat_dat (obj : List ℚ) (constr : List (List ℚ))
    (req : List ℚ) (i j : Nat) :
    (create_augmented_mat obj constr req).dat i j =
      if 1 ≤ i ∧ i < 1 + constr.length then
        (if 1 ≤ j ∧ j < 1 + (constr.length + 1 + obj.length) then
          (if j = constr.length + 1 + obj.length then req.getD (i - 1) 0
           else if j ≤ ncolsOf constr then (constr.getD (i - 1) []).getD (j - 1) 0
           else if j = ncolsOf constr + i then 1
           else if i = 0 ∧ 1 ≤ j ∧ j ≤ obj.length then -(obj.getD (j - 1) 0)
           else if i = 0 ∧ j = 0 then 1 else 0)
         else if j = ncolsOf constr + i then 1
         else if i = 0 ∧ 1 ≤ j ∧ j ≤ obj.length then -(obj.getD (j - 1) 0)
         else if i = 0 ∧ j = 0 then 1 else 0)
      else if i = 0 ∧ 1 ≤ j ∧ j ≤ obj.length then -(obj.getD (j - 1) 0)
      else if i = 0 ∧ j = 0 then 1 else 0 := by
  simp only [create_augmented_mat, objRowFold]
  rw [builderRowsAux]
  rw [objRowFoldAux]
  rw [dat_setE, dat_mk]
  simp only [Nat.add_sub_cancel]

/-- C1 (counterexample): the entering-column tie-break keeps the LAST tied
column, not the first.  In `tTie` the objective row holds `-1` in both
columns 1 and 2, yet `get_next_pivot` selects column 2 (pivot `(2, 2)`),
where the claim's first-occurrence rule would select column 1. -/
theorem claim1_counterexample :
    tTie.dat 0 1 = -1 ∧ tTie.dat 0 2 = -1 ∧ get_next_pivot tTie = some (2, 2) := by
  decide

/-- C1 (amended): `get_next_pivot` selects the entering column by Dantzig's
rule — among columns `1 .. ncols-1` with strictly negative objective-row
entry it picks a most-negative one, breaking ties by the LAST occurrence in
scan order — and returns `none` whenever no objective-row entry is
negative. -/
theorem claim1_amended (t : Mat) :
    (∀ c r, get_next_pivot t = some (c, r) →
      1 ≤ c ∧ c < t.nc ∧ t.dat 0 c < 0 ∧
      (∀ j, 1 ≤ j → j < t.nc → t.dat 0 j < 0 → t.dat 0 c ≤ t.dat 0 j) ∧
      (∀ j, c < j → j < t.nc → t.dat 0 c < t.dat 0 j)) ∧
    ((∀ j, 1 ≤ j → j < t.nc → 0 ≤ t.dat 0 j) → get_next_pivot t = none) := by
  constructor
  · intro c r hpiv
    obtain ⟨hent, _⟩ := get_next_pivot_some t c r hpiv
    obtain ⟨_, h2, h3, h4, h5, h6⟩ := pickEntering_some t c _ hent
    exact ⟨h3, h4, h2, h5, h6⟩
  · intro hall
    unfold get_next_pivot
    rw [(pickEntering_none t).mpr hall]

/-- C1 (witness): the amended characterization applied to the tie tableau. -/
theorem claim1_witness : tTie.dat 0 2 < 0 ∧ tTie.dat 0 2 ≤ tTie.dat 0 1 := by
  have h := (claim1_amended tTie).1 2 2 (by decide)
  exact ⟨h.2.2.1, h.2.2.2.1 1 (by decide) (by decide) (by decide)⟩

/-- C2 (counterexample): the ratio test does NOT discard every row with a
non-positive entering-column coefficient, and the selected pivot entry is
not guaranteed strictly positive.  In `tZeroReq` (requirements `[0, 5]`)
row 1 has coefficient `-1` and RHS `0`, ratio `0 / -1 = -0.0` which is not
`< 0`, so row 1 is selected and the pivot entry is `-1 < 0`. -/
theorem claim2_counterexample :
    get_next_pivot tZeroReq = some (1, 1) ∧ tZeroReq.dat 1 1 = -1 ∧
    ¬ 0 < tZeroReq.dat 1 1 := by
  decide

/-- C2 (amended): whenever `get_next_pivot` returns `(c, r)`, the leaving
row `r` lies in `1 .. nrows-1` and its ratio `RHS[r] / table[r][c]` was not
negative under the IEEE comparison (so the exact ratio is non-negative);
rows discarded by the test are exactly those with a negative ratio — but the
pivot entry itself need not be strictly positive. -/
theorem claim2_amended (t : Mat) (c r : Nat)
    (hpiv : get_next_pivot t = some (c, r)) :
    1 ≤ r ∧ r < t.nr ∧
    fltZero (fdiv (t.dat r (t.nc - 1)) (t.dat r c)) = false ∧
    0 ≤ t.dat r (t.nc - 1) / t.dat r c := by
  obtain ⟨_, hleave⟩ := get_next_pivot_some t c r hpiv
  obtain ⟨_, hflt, hr1, hrnr⟩ := pickLeaving_some t c r _ hleave
  exact ⟨hr1, hrnr, hflt, ratio_nonneg _ _ hflt⟩

/-- C2 (witness): the amended statement evaluated on the zero-requirement
tableau, whose selected ratio is `0 / -1`. -/
theorem claim2_witness : 0 ≤ tZeroReq.dat 1 (tZeroReq.nc - 1) / tZeroReq.dat 1 1 :=
  (claim2_amended tZeroReq 1 1 (by decide)).2.2.2

/-- C3 (confirmed): `apply_row_operations` leaves the pivot row exactly
unchanged and updates every other in-range row entry-wise by
`row[i][j] += (pivotRow[j] / pivotRow[c]) * (-t)` where `t` is the
pre-update value of `row[i][c]`. -/
theorem claim3_row_reducer (t : Mat) (pc pr : Nat) :
    (∀ j, (apply_row_operations (pc, pr) t).dat pr j = t.dat pr j) ∧
    (∀ i j, i < t.nr → j < t.nc → ¬ i = pr →
      (apply_row_operations (pc, pr) t).dat i j =
        t.dat i j + t.dat pr j / t.dat pr pc * -(t.dat i pc)) := by
  constructor
  · intro j
    rw [apply_row_operations_dat, if_neg (fun hh => hh.2.1 rfl)]
  · intro i j hi hj hip
    rw [apply_row_operations_dat, if_pos ⟨hi, hip, hj⟩]

/-- C3 (witness): the row-reduction formula evaluated on the one-constraint
tableau `tOne` at pivot `(1, 1)`. -/
theorem claim3_witness :
    (apply_row_operations (1, 1) tOne).dat 1 2 = tOne.dat 1 2 ∧
    (apply_row_operations (1, 1) tOne).dat 0 3 =
      tOne.dat 0 3 + tOne.dat 1 3 / tOne.dat 1 1 * -(tOne.dat 0 1) := by
  have h := claim3_row_reducer tOne 1 1
  exact ⟨h.1 2, h.2 0 3 (by decide) (by decide) (by decide)⟩

/-- C5 (code behaviour at the failing input): on the unbounded problem
`maximize x subject to -x <= 4` the objective row still has a negative
entry, every row fails the ratio test, and `get_next_pivot` returns the
same `none` sentinel used for optimality, so the driver loop stops and
returns the current tableau as if it were optimal — there is no distinct
`Unbounded` terminal condition anywhere in the code. -/
theorem claim5_conflated :
    tUnb.dat 0 1 < 0 ∧ pickLeaving tUnb 1 = none ∧ get_next_pivot tUnb = none ∧
    simplexLoop 9 tUnb = tUnb :=
  ⟨by decide, by decide, by decide, simplexLoop_of_none 9 tUnb (by decide)⟩

/-- C7 (counterexample): after the pivot `(1, 1)` on `tOne` the entering
column is NOT a unit vector — the pivot row is never scaled, so the
entry at the owning row stays `2`, not `1`. -/
theorem claim7_counterexample :
    get_next_pivot tOne = some (1, 1) ∧
    (apply_row_operations (1, 1) tOne).dat 0 1 = 0 ∧
    (apply_row_operations (1, 1) tOne).dat 1 1 = 2 ∧
    ¬ (apply_row_operations (1, 1) tOne).dat 1 1 = 1 := by
  decide

/-- C7 (amended): after a pivot `(pc, pr)` from `get_next_pivot` with a
nonzero pivot entry, every column that was a unit vector owned by a row
other than the leaving row remains that unit vector, and the entering
column is zeroed in every row except the leaving row, where it keeps its
original (unscaled, not necessarily 1) value. -/
theorem claim7_amended (t : Mat) (pc pr q b : Nat)
    (hpiv : get_next_pivot t = some (pc, pr)) (hnz : ¬ t.dat pr pc = 0)
    (hq : q < t.nr) (hqpr : ¬ q = pr) (hb : b < t.nc)
    (hub : t.dat q b = 1) (hzb : ∀ i, i < t.nr → ¬ i = q → t.dat i b = 0) :
    ((apply_row_operations (pc, pr) t).dat q b = 1 ∧
      ∀ i, i < t.nr → ¬ i = q → (apply_row_operations (pc, pr) t).dat i b = 0) ∧
    ((apply_row_operations (pc, pr) t).dat pr pc = t.dat pr pc ∧
      ∀ i, i < t.nr → ¬ i = pr → (apply_row_operations (pc, pr) t).dat i pc = 0) := by
  obtain ⟨hent, hleave⟩ := get_next_pivot_some t pc pr hpiv
  obtain ⟨_, _, _, hpcnc, _, _⟩ := pickEntering_some t pc _ hent
  obtain ⟨_, _, _, hrnr⟩ := pickLeaving_some t pc pr _ hleave
  have hprb : t.dat pr b = 0 := hzb pr hrnr (fun hh => hqpr hh.symm)
  refine ⟨⟨?_, ?_⟩, ?_, ?_⟩
  · rw [apply_row_operations_dat, if_pos ⟨hq, hqpr, hb⟩, hprb, hub]
    ring
  · intro i hi hiq
    by_cases hipr : i = pr
    · rw [apply_row_operations_dat, if_neg (fun hh => hh.2.1 hipr), hipr]
      exact hprb
    · rw [apply_row_operations_dat, if_pos ⟨hi, hipr, hb⟩, hprb, hzb i hi hiq]
      ring
  · rw [apply_row_operations_dat, if_neg (fun hh => hh.2.1 rfl)]
  · intro i hi hipr
    rw [apply_row_operations_dat, if_pos ⟨hi, hipr, hpcnc⟩, div_self hnz]
    ring

/-- C7 (witness): on `tOne` with pivot `(1, 1)`, column 0 (owned by row 0)
stays the unit vector and the entering column is zeroed in row 0. -/
theorem claim7_witness :
    (apply_row_operations (1, 1) tOne).dat 0 0 = 1 ∧
    (apply_row_operations (1, 1) tOne).dat 0 1 = 0 := by
  have h := claim7_amended tOne 1 1 0 0 (by decide) (by decide) (by decide)
    (by decide) (by decide) (by decide)
    (fun i hi hiq => by
      have hn : tOne.nr = 2 := by decide
      rw [hn] at hi
      have hi1 : i = 1 := by omega
      rw [hi1]
      decide)
  exact ⟨h.1.1, h.2.2 0 (by decide) (by decide)⟩

/-- C8 (counterexample): the code can accept a pivot whose entry is zero,
and there the claimed monotonicity fails in the source.  On `tNaN`
(objective `[1]`, constraint `[[0]]`, requirement `[0]`) the ratio
`0.0 / 0.0 = NaN` is not `< 0.0`, so `get_next_pivot` returns the pivot
`(1, 1)` with pivot entry `table[(1,1)] = 0`.  The row update then divides
by that zero entry: for the objective column the source computes
`table[(1,3)] / table[(1,1)] = 0.0 / 0.0 = NaN` (shown below via `fdiv`,
the IEEE model of the source's division), so the stored objective value
becomes `NaN` — it is not non-decreasing. -/
theorem claim8_counterexample :
    get_next_pivot tNaN = some (1, 1) ∧ tNaN.dat 1 1 = 0 ∧
    fdiv (tNaN.dat 1 (tNaN.nc - 1)) (tNaN.dat 1 1) = FRat.nan := by
  decide

/-- C8 (amended): after an accepted pivot `(c, r)` returned by
`get_next_pivot` whose pivot entry `table[(r, c)]` is nonzero (so the ℚ
update agrees with the source's `f32` update), the objective value at row 0
of the last column is non-decreasing, and it strictly increases whenever
the selected minimum ratio `RHS[r] / table[r][c]` is nonzero (the
degenerate tie is exactly the zero-ratio case).  The nonzero-pivot-entry
hypothesis is forced by the counterexample: a zero pivot entry is reachable
and turns the source's objective entry into `NaN`. -/
theorem claim8_monotone (t : Mat) (c r : Nat)
    (hpiv : get_next_pivot t = some (c, r)) (hnz : ¬ t.dat r c = 0) :
    t.dat 0 (t.nc - 1) ≤ (apply_row_operations (c, r) t).dat 0 (t.nc - 1) ∧
    (¬ t.dat r (t.nc - 1) / t.dat r c = 0 →
      t.dat 0 (t.nc - 1) < (apply_row_operations (c, r) t).dat 0 (t.nc - 1)) := by
  obtain ⟨hent, hleave⟩ := get_next_pivot_some t c r hpiv
  obtain ⟨_, hneg, hc1, hcnc, _, _⟩ := pickEntering_some t c _ hent
  obtain ⟨_, hflt, hr1, hrnr⟩ := pickLeaving_some t c r _ hleave
  have hrho : 0 ≤ t.dat r (t.nc - 1) / t.dat r c := ratio_nonneg _ _ hflt
  have hdat : (apply_row_operations (c, r) t).dat 0 (t.nc - 1) =
      t.dat 0 (t.nc - 1) + t.dat r (t.nc - 1) / t.dat r c * -(t.dat 0 c) := by
    rw [apply_row_operations_dat, if_pos ⟨by omega, by omega, by omega⟩]
  rw [hdat]
  constructor
  · have hstep : 0 ≤ t.dat r (t.nc - 1) / t.dat r c * -(t.dat 0 c) :=
      mul_nonneg hrho (by linarith)
    linarith
  · intro hne
    have hpos : 0 < t.dat r (t.nc - 1) / t.dat r c := lt_of_le_of_ne hrho (Ne.symm hne)
    have hstep : 0 < t.dat r (t.nc - 1) / t.dat r c * -(t.dat 0 c) :=
      mul_pos hpos (by linarith)
    linarith

/-- C8 (witness): on `tOne`, the pivot `(1, 1)` has nonzero pivot entry 2
and ratio `4 / 2 = 2 ≠ 0`, so the objective value strictly increases. -/
theorem claim8_witness :
    tOne.dat 0 (tOne.nc - 1) <
      (apply_row_operations (1, 1) tOne).dat 0 (tOne.nc - 1) :=
  (claim8_monotone tOne 1 1 (by decide) (by decide)).2 (by decide)

/-- C10 (confirmed): the tableau returned by `simplex_method` does not
depend on the `with_print` flag (it only guards `println!` calls), and the
solve is a pure function of its inputs, hence deterministic. -/
theorem claim10_flag_independent (fuel : Nat) (constr : List (List ℚ))
    (req obj : List ℚ) (b b' : Bool) :
    simplex_method fuel constr req obj b = simplex_method fuel constr req obj b' := rfl

/-- C4 (confirmed): for an objective of length `n`, a rectangular `m × n`
constraint matrix and a requirement vector of length `m`, the built tableau
has `m + 1` rows and `m + n + 2` columns, entry `(0,0)` is 1, columns
`1 ..= n` of row 0 hold the negated objective, the last entry of row 0 is 0,
the slack block (rows `1 ..= m`, columns `n+1 ..= n+m`) is the identity,
rows `1 ..= m` of columns `1 ..= n` hold the constraint coefficients, and
the last column of row `i` holds `req[i-1]`. -/
theorem claim4_builder_shape (obj : List ℚ) (constr : List (List ℚ)) (req : List ℚ)
    (hrect : ∀ row ∈ constr, row.length = obj.length)
    (hreq : req.length = constr.length) :
    (create_augmented_mat obj constr req).nr = constr.length + 1 ∧
    (create_augmented_mat obj constr req).nc = constr.length + obj.length + 2 ∧
    (create_augmented_mat obj constr req).dat 0 0 = 1 ∧
    (∀ k, k < obj.length →
      (create_augmented_mat obj constr req).dat 0 (k + 1) = -(obj.getD k 0)) ∧
    (create_augmented_mat obj constr req).dat 0 (constr.length + obj.length + 1) = 0 ∧
    (∀ i j, 1 ≤ i → i ≤ constr.length → obj.length + 1 ≤ j →
      j ≤ obj.length + constr.length →
      (create_augmented_mat obj constr req).dat i j =
        if j = obj.length + i then 1 else 0) ∧
    (∀ i j, 1 ≤ i → i ≤ constr.length → 1 ≤ j → j ≤ obj.length →
      (create_augmented_mat obj constr req).dat i j =
        (constr.getD (i - 1) []).getD (j - 1) 0) ∧
    (∀ i, 1 ≤ i → i ≤ constr.length →
      (create_augmented_mat obj constr req).dat i (constr.length + obj.length + 1) =
        req.getD (i - 1) 0) := by
  have hcn : ∀ i, 1 ≤ i → i ≤ constr.length → ncolsOf constr = obj.length := by
    intro i h1 h2
    cases constr with
    | nil =>
      simp only [List.length_nil] at h2
      omega
    | cons a l => exact hrect a (List.mem_cons_self a l)
  refine ⟨create_augmented_mat_nr obj constr req, ?_, ?_, ?_, ?_, ?_, ?_, ?_⟩
  · rw [create_augmented_mat_nc]
    omega
  · rw [create_augmented_mat_dat, if_neg (by omega), if_neg (by omega),
      if_pos ⟨rfl, rfl⟩]
  · intro k hk
    rw [create_augmented_mat_dat, if_neg (by omega),
      if_pos (⟨rfl, by omega, by omega⟩ :
        (0 : Nat) = 0 ∧ 1 ≤ k + 1 ∧ k + 1 ≤ obj.length),
      Nat.add_sub_cancel]
  · rw [create_augmented_mat_dat, if_neg (by omega), if_neg (by omega),
      if_neg (by omega)]
  · intro i j h1 h2 h3 h4
    have hc := hcn i h1 h2
    rw [create_augmented_mat_dat, hc,
      if_pos (⟨h1, by omega⟩ : 1 ≤ i ∧ i < 1 + constr.length),
      if_pos (⟨by omega, by omega⟩ :
        1 ≤ j ∧ j < 1 + (constr.length + 1 + obj.length)),
      if_neg (by omega : ¬ j = constr.length + 1 + obj.length),
      if_neg (by omega : ¬ j ≤ obj.length)]
    by_cases hji : j = obj.length + i
    · rw [if_pos hji, if_pos hji]
    · rw [if_neg hji, if_neg hji, if_neg (by omega), if_neg (by omega)]
  · intro i j h1 h2 h3 h4
    have hc := hcn i h1 h2
    rw [create_augmented_mat_dat, hc,
      if_pos (⟨h1, by omega⟩ : 1 ≤ i ∧ i < 1 + constr.length),
      if_pos (⟨by omega, by omega⟩ :
        1 ≤ j ∧ j < 1 + (constr.length + 1 + obj.length)),
      if_neg (by omega : ¬ j = constr.length + 1 + obj.length),
      if_pos (by omega : j ≤ obj.length)]
  · intro i h1 h2
    rw [create_augmented_mat_dat,
      if_pos (⟨h1, by omega⟩ : 1 ≤ i ∧ i < 1 + constr.length),
      if_pos (⟨by omega, by omega⟩ :
        1 ≤ constr.length + obj.length + 1 ∧
          constr.length + obj.length + 1 < 1 + (constr.length + 1 + obj.length)),
      if_pos (by omega :
        constr.length + obj.length + 1 = constr.length + 1 + obj.length)]

/-- C4 (witness): the shape theorem evaluated on the 2-variable,
2-constraint input `objW`, `constrW`, `reqW`. -/
theorem claim4_witness :
    (create_augmented_mat objW constrW reqW).nr = 3 ∧
    (create_augmented_mat objW constrW reqW).nc = 6 ∧
    (create_augmented_mat objW constrW reqW).dat 1 3 = 1 ∧
    (create_augmented_mat objW constrW reqW).dat 2 3 = 0 ∧
    (create_augmented_mat objW constrW reqW).dat 1 5 = 7 ∧
    (create_augmented_mat objW constrW reqW).dat 1 1 = 3 := by
  have h := claim4_builder_shape objW constrW reqW (by decide) (by decide)
  refine ⟨h.1, h.2.1.trans (by decide), ?_, ?_, ?_, ?_⟩
  · exact (h.2.2.2.2.2.1 1 3 (by decide) (by decide) (by decide)
      (by decide)).trans (by decide)
  · exact (h.2.2.2.2.2.1 2 3 (by decide) (by decide) (by decide)
      (by decide)).trans (by decide)
  · exact (h.2.2.2.2.2.2.2 1 (by decide) (by decide)).trans (by decide)
  · exact (h.2.2.2.2.2.2.1 1 1 (by decide) (by decide) (by decide)
      (by decide)).trans (by decide)

/-- C6 (confirmed): on the worked example — objective
`[20000, 45000, 85000]`, constraints
`[[10,15,10],[13,5,5],[20,5,10],[0,0,1]]`, requirements `[720,680,550,7]` —
the solve loop reaches a tableau with no further pivot (so the source's
`while let` loop terminates), and the returned tableau holds the optimal
value 2545000 at row 0, column 8. -/
theorem claim6_worked_example :
    get_next_pivot (simplex_method 20 constrP1 reqP1 objP1 true) = none ∧
    (simplex_method 20 constrP1 reqP1 objP1 true).dat 0 8 = 2545000 := by
  decide

/-- C9 (code behaviour at the failing input): building the tableau from a
3-row constraint matrix and a length-2 requirement vector fails inside
`create_augmented_mat` — before any pivoting can happen — but with a plain
index-out-of-bounds panic on `req[2]`, not with a structured
`InvalidDimensions` error. -/
theorem claim9_mismatch_panics :
    buildErr (create_augmented_mat_checked objMis constrMis reqMis) =
      some BuildError.indexOutOfBounds ∧
    ¬ buildErr (create_augmented_mat_checked objMis constrMis reqMis) =
      some BuildError.invalidDimensions := by
  decide

end Simplex
